import Mathlib

/-!
Verification of the two screens of the AICA mobile vocabulary app:
the home screen (`src/app/home.tsx`): fetching the saved-word list,
deduplicating it by word identifier, and toggling meaning visibility;
and the profile screen: fetching account info and the saved-word
count in parallel, and clearing the stored tokens on logout.

The TypeScript is embedded shallowly: each React state variable
becomes a field of an explicit state record, each handler becomes a
pure state-transition function, HTTP results become `Except` values,
and UI side effects (alerts, navigation) become an explicit effect
list.  Identifiers coming from the backend are modelled as `Nat`.
-/

namespace AicaMobile

/-- The TypeScript interface `Meaning` from `home.tsx`. -/
structure Meaning where
  meaning : String
deriving DecidableEq, Repr

/-- The TypeScript interface `WordData` from `home.tsx`: one entry of
`response.data.data` returned by `GET /api/word`. -/
structure WordData where
  wordId : Nat
  sentenceId : Nat
  word : String
  meanings : List Meaning
deriving DecidableEq, Repr

/-- The TypeScript interface `ProcessedWord extends WordData` from `home.tsx`. -/
structure ProcessedWord where
  wordId : Nat
  sentenceId : Nat
  word : String
  meanings : List Meaning
  formattedMeanings : String
  isMeaningVisible : Bool
deriving DecidableEq, Repr

/-- The React state of `HomeScreen`: `words`, `isLoading`, `showAllMeanings`. -/
structure HomeState where
  words : List ProcessedWord
  isLoading : Bool
  showAllMeanings : Bool
deriving DecidableEq, Repr

/-- The template literal `` `${wordId}-${sentenceId}` `` used both by
`WordCard` / `handleItemToggle` and by the `FlatList` `keyExtractor`. -/
def mkUniqueId (wordId sentenceId : Nat) : String :=
  Nat.repr wordId ++ "-" ++ Nat.repr sentenceId

/-- The key `keyExtractor` computes for an item (home.tsx line 144). -/
def uniqueIdOf (w : ProcessedWord) : String :=
  mkUniqueId w.wordId w.sentenceId

/-- The deduplication `allWords.filter((word, index, self) => index ===
self.findIndex(w => w.wordId === word.wordId))` from `fetchWords`
(home.tsx lines 67-69).
The JavaScript `filter` callback receives the element, its index and the
whole array; we mirror that by filtering the `(index, element)` pairs of
`List.enum` and projecting the element back out.  `findIndex` always
succeeds here because the element itself matches its own predicate. -/
def uniqueWords (allWords : List WordData) : List WordData :=
  ((allWords.enum).filter (fun iw =>
      iw.1 == allWords.findIdx (fun w => w.wordId == iw.2.wordId))).map Prod.snd

/-- The formatting step of `fetchWords` (home.tsx lines 73-75): number each
meaning from 1 and join them with single spaces. -/
def formatMeanings (meanings : List Meaning) : String :=
  String.intercalate " "
    ((meanings.enum).map (fun im => Nat.repr (im.1 + 1) ++ ". " ++ im.2.meaning))

/-- The `processedData` computation of `fetchWords` (home.tsx lines 71-77):
spread each deduplicated entry and add `formattedMeanings` and
`isMeaningVisible: false`. -/
def processWords (allWords : List WordData) : List ProcessedWord :=
  (uniqueWords allWords).map (fun word =>
    { wordId := word.wordId
      sentenceId := word.sentenceId
      word := word.word
      meanings := word.meanings
      formattedMeanings := formatMeanings word.meanings
      isMeaningVisible := false })

/-- One completed run of `fetchWords` (home.tsx lines 61-85).  The HTTP
call outcome is the `result` argument: `Except.ok` carries the parsed
`response.data.data`, `Except.error` stands for the caught exception.
`setIsLoading(true)` runs first; on success `setWords(processedData)`
runs; the `finally` block sets `isLoading` back to `false`.  The `catch`
branch only logs, touching no state. -/
def fetchWords (s : HomeState) (result : Except Unit (List WordData)) : HomeState :=
  let s1 : HomeState := { s with isLoading := true }
  match result with
  | Except.ok allWords => { s1 with words := processWords allWords, isLoading := false }
  | Except.error _ => { s1 with isLoading := false }

/-- Handler `handleToggleAllMeanings` (home.tsx lines 91-100): negate
`showAllMeanings` and set the `isMeaningVisible` of every entry to the new
flag. -/
def handleToggleAllMeanings (s : HomeState) : HomeState :=
  let newShowAllState := !s.showAllMeanings
  { s with
    showAllMeanings := newShowAllState
    words := s.words.map (fun word => { word with isMeaningVisible := newShowAllState }) }

/-- Handler `handleItemToggle` (home.tsx lines 102-110): flip `isMeaningVisible`
of every entry whose composite key equals `uniqueId`, keep the rest. -/
def handleItemToggle (uniqueId : String) (prevWords : List ProcessedWord) :
    List ProcessedWord :=
  prevWords.map (fun word =>
    if mkUniqueId word.wordId word.sentenceId == uniqueId then
      { word with isMeaningVisible := !word.isMeaningVisible }
    else
      word)

/-- The TypeScript interface `UserInfo` from the profile screen
(`MyPageScreen`). -/
structure UserInfo where
  id : Nat
  userId : String
  email : String
  nickname : String
deriving DecidableEq, Repr

/-- The own `interface WordData` of the profile screen: only `wordId` is typed
there. -/
structure ProfileWordData where
  wordId : Nat
deriving DecidableEq, Repr

/-- The view the profile screen has of a fetched word entry: the same
JSON object, typed down to its `wordId` field. -/
def toProfileWordData (w : WordData) : ProfileWordData :=
  { wordId := w.wordId }

/-- The deduplication in the `fetchData` of the profile screen (lines 58-60
of the file): textually the same `filter`/`findIndex` combination as
the one of the home screen, over its own `WordData` view. -/
def uniqueWordsProfile (allWords : List ProfileWordData) : List ProfileWordData :=
  ((allWords.enum).filter (fun iw =>
      iw.1 == allWords.findIdx (fun w => w.wordId == iw.2.wordId))).map Prod.snd

/-- The React state of `MyPageScreen`: `userInfo`, `wordCount`,
`isLoading`, `isLogoutModalVisible`. -/
structure MyPageState where
  userInfo : Option UserInfo
  wordCount : Nat
  isLoading : Bool
  isLogoutModalVisible : Bool
deriving DecidableEq, Repr

/-- UI side effects performed by the profile screen handlers. -/
inductive Effect where
  | alert (title message : String)
  | navigate (path : String)
deriving DecidableEq, Repr

/-- Semantics of `Promise.all` over the two GET requests in `fetchData`: it resolves
with both payloads only when both requests succeed, and rejects as soon
as either fails. -/
def promiseAll2 (a : Except Unit α) (b : Except Unit β) : Except Unit (α × β) :=
  match a, b with
  | Except.ok x, Except.ok y => Except.ok (x, y)
  | Except.error e, _ => Except.error e
  | _, Except.error e => Except.error e

/-- One completed run of the profile screen handler `fetchData` (lines 46-70):
`setIsLoading(true)`; on joint success `setUserInfo(memberResponse.data)`
and `setWordCount(uniqueWords.length)`; on failure the `catch` block
shows one generic alert and sets no state; `finally` clears `isLoading`. -/
def fetchData (s : MyPageState) (memberResult : Except Unit UserInfo)
    (wordResult : Except Unit (List ProfileWordData)) : MyPageState × List Effect :=
  let s1 : MyPageState := { s with isLoading := true }
  match promiseAll2 memberResult wordResult with
  | Except.ok (member, allWords) =>
      ({ s1 with
          userInfo := some member
          wordCount := (uniqueWordsProfile allWords).length
          isLoading := false }, [])
  | Except.error _ =>
      ({ s1 with isLoading := false },
       [Effect.alert "오류" "정보를 가져오는 중 문제가 발생했습니다."])

/-- The secure key-value store (`expo-secure-store`) as a mapping
from keys to stored values. -/
def SecureStore : Type := String → Option String

/-- Model of `SecureStore.deleteItemAsync(key)`: remove one key. -/
def deleteItemAsync (key : String) (store : SecureStore) : SecureStore :=
  fun k => if k = key then none else store k

/-- Handler `confirmLogout` (lines 80-92): hide the modal, delete the
`accessToken` and `refreshToken` entries, then navigate to `/main`. -/
def confirmLogout (s : MyPageState) (store : SecureStore) :
    MyPageState × SecureStore × List Effect :=
  ({ s with isLogoutModalVisible := false },
   deleteItemAsync "refreshToken" (deleteItemAsync "accessToken" store),
   [Effect.navigate "/main"])

/-- Pairwise distinctness of the `FlatList` keys of a word list. -/
def distinctKeys (ws : List ProcessedWord) : Prop :=
  ws.Pairwise (fun a b => uniqueIdOf a ≠ uniqueIdOf b)

/-- Numeric value of a decimal digit character. -/
def digitVal (c : Char) : Nat := c.toNat - 48

/-- Numeric value of a most-significant-first digit string; used to show
that decimal rendering of identifiers is injective. -/
def valOfDigits : List Char → Nat
  | [] => 0
  | c :: cs => digitVal c * 10 ^ cs.length + valOfDigits cs

/-- Sample word entries used to evaluate the theorems on concrete input. -/
def cxA : WordData :=
  { wordId := 1, sentenceId := 1, word := "apple", meanings := [{ meaning := "a fruit" }] }

/-- Sample entry sharing the `wordId` of `cxA` but with another `sentenceId`. -/
def cxB : WordData :=
  { wordId := 1, sentenceId := 2, word := "apple", meanings := [] }

/-- Sample entry with a second `wordId`. -/
def cxC : WordData :=
  { wordId := 2, sentenceId := 3, word := "tree", meanings := [] }

/-- Sample processed entry for concrete evaluations. -/
def demoWord : ProcessedWord :=
  { wordId := 1, sentenceId := 2, word := "apple", meanings := [{ meaning := "a fruit" }],
    formattedMeanings := "1. a fruit", isMeaningVisible := false }

/-- Sample home-screen state. -/
def demoState : HomeState :=
  { words := [demoWord], isLoading := false, showAllMeanings := false }

/-- Sample home-screen state with `showAllMeanings` switched on. -/
def demoStateShown : HomeState :=
  { words := [], isLoading := false, showAllMeanings := true }

/-- Sample profile user. -/
def demoUser : UserInfo :=
  { id := 1, userId := "user1", email := "user1@example.com", nickname := "aica" }

/-- Sample profile-screen state. -/
def demoMyPage : MyPageState :=
  { userInfo := some demoUser, wordCount := 3, isLoading := false,
    isLogoutModalVisible := false }

/-- Sample secure store holding every key. -/
def demoStore : SecureStore := fun k => some k

/-! ## Helper lemmas -/

/-- A `findIndex` result equals `i` exactly when position `i` matches and no
earlier position does. -/
theorem findIdx_eq_iff_all_take {α : Type*} (p : α → Bool) :
    ∀ (l : List α) (i : Nat) (hi : i < l.length), p (l.get ⟨i, hi⟩) = true →
      ((l.findIdx p = i) ↔ ((l.take i).all fun a => !p a) = true) := by
  intro l
  induction l with
  | nil => intro i hi; simp at hi
  | cons a t ih =>
    intro i hi hp
    cases i with
    | zero =>
      simp only [List.get_eq_getElem, List.getElem_cons_zero] at hp
      rw [List.findIdx_cons, hp]
      simp
    | succ j =>
      simp only [List.get_eq_getElem, List.getElem_cons_succ] at hp
      have hj : j < t.length := Nat.lt_of_succ_lt_succ hi
      rw [List.findIdx_cons]
      cases hpa : p a with
      | true =>
        simp [hpa]
      | false =>
        simp only [hpa, cond_false, List.take_succ_cons, List.all_cons,
          Bool.not_false, Bool.true_and]
        rw [Nat.succ_inj]
        exact ih j hj hp

/-- Indices in `List.enumFrom` are strictly increasing. -/
theorem enumFrom_fst_lt_pairwise {α : Type*} :
    ∀ (n : Nat) (l : List α), (List.enumFrom n l).Pairwise (fun x y => x.1 < y.1) := by
  intro n l
  induction l generalizing n with
  | nil => simp
  | cons a t ih =>
    rw [List.enumFrom_cons]
    refine List.Pairwise.cons ?_ (ih (n + 1))
    intro y hy
    obtain ⟨i, x⟩ := y
    have h := List.mem_enumFrom hy
    exact Nat.lt_of_succ_le h.1

/-- Entries surviving the home-screen deduplication have pairwise
distinct `wordId`s. -/
theorem uniqueWords_wordId_pairwise (l : List WordData) :
    (uniqueWords l).Pairwise (fun a b => a.wordId ≠ b.wordId) := by
  unfold uniqueWords
  rw [List.pairwise_map]
  have base : (l.enum).Pairwise (fun x y : Nat × WordData => x.1 < y.1) :=
    enumFrom_fst_lt_pairwise 0 l
  have hf := base.filter (fun iw =>
    iw.1 == l.findIdx (fun w => w.wordId == iw.2.wordId))
  refine List.Pairwise.imp_of_mem ?_ hf
  intro x y hx hy hlt heq
  have qx := (List.mem_filter.mp hx).2
  have qy := (List.mem_filter.mp hy).2
  rw [beq_iff_eq] at qx qy
  have hpred : (fun w : WordData => w.wordId == x.2.wordId)
      = (fun w : WordData => w.wordId == y.2.wordId) := by
    funext w; rw [heq]
  rw [qx, qy, hpred] at hlt
  exact Nat.lt_irrefl _ hlt

/-- Computing `findIndex` after a `map` is `findIndex` of the composition. -/
theorem findIdx_map_eq {α β : Type*} (f : α → β) (p : β → Bool) :
    ∀ l : List α, (l.map f).findIdx p = l.findIdx (fun a => p (f a)) := by
  intro l
  induction l with
  | nil => rfl
  | cons a t ih => simp [List.findIdx_cons, ih]

/-- Every decimal digit character evaluates back to the digit. -/
theorem digitVal_digitChar : ∀ m : Nat, m < 10 → digitVal (Nat.digitChar m) = m := by decide

/-- With enough fuel, `Nat.toDigitsCore` prepends the decimal expansion of
`n` to the accumulator, as measured by `valOfDigits`. -/
theorem toDigitsCore_val :
    ∀ (f n : Nat) (ds : List Char), n < f →
      valOfDigits (Nat.toDigitsCore 10 f n ds) = n * 10 ^ ds.length + valOfDigits ds := by
  intro f
  induction f with
  | zero => intro n ds h; exact absurd h (Nat.not_lt_zero n)
  | succ f ih =>
    intro n ds h
    rw [Nat.toDigitsCore]
    have hd : digitVal (Nat.digitChar (n % 10)) = n % 10 :=
      digitVal_digitChar _ (Nat.mod_lt _ (by decide))
    split
    · rename_i h0
      have hn : n < 10 := (Nat.div_eq_zero_iff (by decide)).mp h0
      simp only [valOfDigits]
      rw [hd, Nat.mod_eq_of_lt hn]
    · rename_i h0
      have hpos : 0 < n := by
        rcases Nat.eq_zero_or_pos n with rfl | hp
        · simp at h0
        · exact hp
      have hlt : n / 10 < f :=
        Nat.lt_of_lt_of_le (Nat.div_lt_self hpos (by decide)) (Nat.lt_succ_iff.mp h)
      rw [ih (n / 10) (Nat.digitChar (n % 10) :: ds) hlt]
      simp only [valOfDigits, List.length_cons, hd, pow_succ]
      conv_rhs => rw [← Nat.div_add_mod n 10]
      ring

/-- Decimal rendering round-trips through `valOfDigits`. -/
theorem valOfDigits_toDigits (n : Nat) :
    valOfDigits (Nat.toDigits 10 n) = n := by
  have h := toDigitsCore_val (n + 1) n [] (Nat.lt_succ_self n)
  simpa [Nat.toDigits, valOfDigits] using h

/-- Decimal rendering of naturals is injective. -/
theorem nat_repr_injective : Function.Injective Nat.repr := by
  intro a b h
  have hdata : Nat.toDigits 10 a = Nat.toDigits 10 b := by
    have h2 := congrArg String.data h
    simpa [Nat.repr, List.asString] using h2
  have h3 := congrArg valOfDigits hdata
  rwa [valOfDigits_toDigits, valOfDigits_toDigits] at h3

/-- No decimal digit character is the dash separator. -/
theorem digitChar_ne_dash : ∀ m : Nat, m < 10 → Nat.digitChar m ≠ '-' := by decide

/-- Digit strings produced by `Nat.toDigitsCore` never contain a dash. -/
theorem toDigitsCore_no_dash :
    ∀ (f n : Nat) (ds : List Char), '-' ∉ ds → '-' ∉ Nat.toDigitsCore 10 f n ds := by
  intro f
  induction f with
  | zero => intro n ds h; simpa [Nat.toDigitsCore] using h
  | succ f ih =>
    intro n ds h
    rw [Nat.toDigitsCore]
    split
    · intro hc
      rcases List.mem_cons.mp hc with hc | hc
      · exact digitChar_ne_dash (n % 10) (Nat.mod_lt _ (by decide)) hc.symm
      · exact h hc
    · refine ih (n / 10) (Nat.digitChar (n % 10) :: ds) ?_
      intro hc
      rcases List.mem_cons.mp hc with hc | hc
      · exact digitChar_ne_dash (n % 10) (Nat.mod_lt _ (by decide)) hc.symm
      · exact h hc

/-- The decimal rendering of a natural never contains a dash. -/
theorem repr_no_dash (n : Nat) : '-' ∉ (Nat.repr n).data := by
  have h := toDigitsCore_no_dash (n + 1) n [] (by simp)
  simpa [Nat.repr, Nat.toDigits, List.asString] using h

/-- Splitting at the first dash of a dash-separated pair is unambiguous. -/
theorem append_dash_inj :
    ∀ (xs ys cs ds : List Char), '-' ∉ xs → '-' ∉ ys →
      xs ++ '-' :: cs = ys ++ '-' :: ds → xs = ys ∧ cs = ds := by
  intro xs
  induction xs with
  | nil =>
    intro ys cs ds _ hys h
    cases ys with
    | nil => simpa using h
    | cons y yt =>
      simp only [List.nil_append, List.cons_append, List.cons.injEq] at h
      exact absurd (h.1 ▸ List.mem_cons_self y yt) hys
  | cons x xt ih =>
    intro ys cs ds hxs hys h
    cases ys with
    | nil =>
      simp only [List.nil_append, List.cons_append, List.cons.injEq] at h
      exact absurd (h.1 ▸ List.mem_cons_self x xt) hxs
    | cons y yt =>
      simp only [List.cons_append, List.cons.injEq] at h
      obtain ⟨hxy, ht⟩ := h
      have hr := ih yt cs ds (fun hm => hxs (List.mem_cons_of_mem _ hm))
        (fun hm => hys (List.mem_cons_of_mem _ hm)) ht
      exact ⟨by rw [hxy, hr.1], hr.2⟩

/-- The composite key `wordId-sentenceId` determines both identifiers. -/
theorem mkUniqueId_inj {a c b d : Nat} (h : mkUniqueId a c = mkUniqueId b d) :
    a = b ∧ c = d := by
  have hdata := congrArg String.data h
  simp only [mkUniqueId, String.data_append] at hdata
  rw [List.append_assoc, List.append_assoc, List.singleton_append,
    List.singleton_append] at hdata
  have h2 := append_dash_inj _ _ _ _ (repr_no_dash a) (repr_no_dash b) hdata
  exact ⟨nat_repr_injective (String.ext h2.1), nat_repr_injective (String.ext h2.2)⟩

/-- Processing a fetched list yields pairwise distinct composite keys. -/
theorem processWords_distinctKeys (allWords : List WordData) :
    distinctKeys (processWords allWords) := by
  unfold distinctKeys processWords
  rw [List.pairwise_map]
  refine (uniqueWords_wordId_pairwise allWords).imp ?_
  intro a b hne hkey
  exact hne (mkUniqueId_inj hkey).1

/-- The per-item toggle never re-keys, adds or removes entries. -/
theorem handleItemToggle_keys (uid : String) (ws : List ProcessedWord) :
    (handleItemToggle uid ws).map uniqueIdOf = ws.map uniqueIdOf := by
  unfold handleItemToggle
  rw [List.map_map]
  apply List.map_congr_left
  intro w hw
  by_cases h : (mkUniqueId w.wordId w.sentenceId == uid) = true
  · simp only [Function.comp_apply, if_pos h]
    rfl
  · simp only [Function.comp_apply, if_neg h]

/-- The toggle-all handler never re-keys, adds or removes entries. -/
theorem handleToggleAll_keys (t : HomeState) :
    (handleToggleAllMeanings t).words.map uniqueIdOf = t.words.map uniqueIdOf := by
  unfold handleToggleAllMeanings
  rw [List.map_map]
  apply List.map_congr_left
  intro w hw
  rfl

/-- Key distinctness transfers along equality of key lists. -/
theorem distinctKeys_of_map_eq {ws ws2 : List ProcessedWord}
    (h : ws2.map uniqueIdOf = ws.map uniqueIdOf) (hd : distinctKeys ws) :
    distinctKeys ws2 := by
  have h1 : List.Pairwise Ne (ws.map uniqueIdOf) := List.pairwise_map.mpr hd
  rw [← h] at h1
  exact List.pairwise_map.mp h1

/-! ## Claim theorems -/

/-- C1: for every fetched list, the home-screen deduplication retains
exactly the entries (in original order) for which no earlier entry of the
list has the same `wordId`. -/
theorem home_dedup_keeps_first_occurrence (l : List WordData) :
    uniqueWords l =
      ((l.enum).filter (fun iw =>
          (l.take iw.1).all fun w => w.wordId != iw.2.wordId)).map Prod.snd := by
  unfold uniqueWords
  congr 1
  apply List.filter_congr
  intro x hx
  obtain ⟨i, w⟩ := x
  rw [List.mem_enum_iff_getElem?] at hx
  obtain ⟨hi, hw⟩ := List.getElem?_eq_some_iff.mp hx
  have hp : (fun v : WordData => v.wordId == w.wordId) (l.get ⟨i, hi⟩) = true := by
    simp only [List.get_eq_getElem, hw, beq_self_eq_true]
  have hiff := findIdx_eq_iff_all_take (fun v : WordData => v.wordId == w.wordId) l i hi hp
  rw [Bool.eq_iff_iff]
  simp only [beq_iff_eq, bne]
  constructor
  · intro h1
    exact hiff.mp (by simpa using h1.symm)
  · intro h2
    exact (by simpa using (hiff.mpr (by simpa using h2)).symm)

/-- C2 counterexample: the entries `cxA` and `cxB` share `wordId := 1` but
differ in `sentenceId`; the claim says both survive deduplication, yet the
code keeps only the first. -/
theorem dedup_drops_second_sentence_cex :
    uniqueWords [cxA, cxB] = [cxA] ∧ cxB ∉ uniqueWords [cxA, cxB] := by decide

/-- C2 amended: deduplication keys entries by `wordId` alone, so two
distinct retained entries never share a `wordId`, regardless of their
`sentenceId`s; of two fetched entries with the same `wordId` at most the
first survives. -/
theorem dedup_wordId_unique_among_kept (l : List WordData) (a b : WordData)
    (ha : a ∈ uniqueWords l) (hb : b ∈ uniqueWords l) (hab : a ≠ b) :
    a.wordId ≠ b.wordId := by
  have hsym : Symmetric (fun x y : WordData => x.wordId ≠ y.wordId) :=
    fun x y h => Ne.symm h
  exact List.Pairwise.forall hsym (uniqueWords_wordId_pairwise l) ha hb hab

/-- C2 amended, witness: the two distinct entries kept from
`[cxA, cxB, cxC]` indeed have different `wordId`s. -/
theorem dedup_wordId_unique_among_kept_witness : cxA.wordId ≠ cxC.wordId :=
  dedup_wordId_unique_among_kept [cxA, cxB, cxC] cxA cxC
    (by decide) (by decide) (by decide)

/-- C3: toggling by a composite key `wordId-sentenceId` flips
`isMeaningVisible` of exactly the positions whose key matches and returns
every other entry unchanged, preserving the length of the list. -/
theorem itemToggle_flips_exactly_matching (l : List ProcessedWord)
    (wid sid i : Nat) (w : ProcessedWord) (hw : l[i]? = some w) :
    (handleItemToggle (mkUniqueId wid sid) l).length = l.length ∧
    (mkUniqueId w.wordId w.sentenceId = mkUniqueId wid sid →
      (handleItemToggle (mkUniqueId wid sid) l)[i]? =
        some { w with isMeaningVisible := !w.isMeaningVisible }) ∧
    (mkUniqueId w.wordId w.sentenceId ≠ mkUniqueId wid sid →
      (handleItemToggle (mkUniqueId wid sid) l)[i]? = some w) := by
  refine ⟨by simp [handleItemToggle], ?_, ?_⟩
  · intro h
    simp [handleItemToggle, List.getElem?_map, hw, h]
  · intro h
    simp [handleItemToggle, List.getElem?_map, hw, h]

/-- C3 witness: with `demoWord` keyed `1-2`, toggling `1-2` flips its
visibility. -/
theorem itemToggle_flips_exactly_matching_witness :
    (handleItemToggle (mkUniqueId 1 2) [demoWord])[0]? =
      some { demoWord with isMeaningVisible := !demoWord.isMeaningVisible } :=
  (itemToggle_flips_exactly_matching [demoWord] 1 2 0 demoWord rfl).2.1 rfl

/-- C4: the toggle-all handler negates `showAllMeanings` and maps every
entry to a copy whose `isMeaningVisible` is the new flag, all other fields
and the loading flag untouched. -/
theorem toggleAll_sets_all_visibility (s : HomeState) :
    (handleToggleAllMeanings s).showAllMeanings = !s.showAllMeanings ∧
    (handleToggleAllMeanings s).isLoading = s.isLoading ∧
    (handleToggleAllMeanings s).words.length = s.words.length ∧
    ∀ (i : Nat) (w : ProcessedWord), s.words[i]? = some w →
      (handleToggleAllMeanings s).words[i]? =
        some { w with isMeaningVisible := !s.showAllMeanings } := by
  refine ⟨rfl, rfl, by simp [handleToggleAllMeanings], ?_⟩
  intro i w hw
  simp [handleToggleAllMeanings, List.getElem?_map, hw]

/-- C4 witness: toggling all on `demoState` makes `demoWord` visible. -/
theorem toggleAll_sets_all_visibility_witness :
    (handleToggleAllMeanings demoState).words[0]? =
      some { demoWord with isMeaningVisible := true } :=
  (toggleAll_sets_all_visibility demoState).2.2.2 0 demoWord rfl

/-- C5: when the home-screen fetch fails, the word list and the
`showAllMeanings` flag are untouched and only the loading flag ends up
`false`. -/
theorem fetch_failure_preserves_words (s : HomeState) (e : Unit) :
    (fetchWords s (Except.error e)).words = s.words ∧
    (fetchWords s (Except.error e)).showAllMeanings = s.showAllMeanings ∧
    (fetchWords s (Except.error e)).isLoading = false :=
  ⟨rfl, rfl, rfl⟩

/-- C6: if either profile request fails, `Promise.all` rejects, so neither
`userInfo` nor `wordCount` is updated and exactly the one generic alert is
emitted. -/
theorem profile_fetch_error_atomic (s : MyPageState) (mr : Except Unit UserInfo)
    (wr : Except Unit (List ProfileWordData))
    (h : mr = Except.error () ∨ wr = Except.error ()) :
    (fetchData s mr wr).1.userInfo = s.userInfo ∧
    (fetchData s mr wr).1.wordCount = s.wordCount ∧
    (fetchData s mr wr).1.isLoading = false ∧
    (fetchData s mr wr).2 =
      [Effect.alert "오류" "정보를 가져오는 중 문제가 발생했습니다."] := by
  rcases h with h | h
  · subst h
    cases wr <;> simp [fetchData, promiseAll2]
  · subst h
    cases mr <;> simp [fetchData, promiseAll2]

/-- C6 witness: with the member request failing and the word request
succeeding, the state fields survive unchanged. -/
theorem profile_fetch_error_atomic_witness :
    (fetchData demoMyPage (Except.error ()) (Except.ok [])).1.userInfo
        = demoMyPage.userInfo ∧
    (fetchData demoMyPage (Except.error ()) (Except.ok [])).1.wordCount
        = demoMyPage.wordCount :=
  ⟨(profile_fetch_error_atomic demoMyPage (Except.error ()) (Except.ok [])
      (Or.inl rfl)).1,
   (profile_fetch_error_atomic demoMyPage (Except.error ()) (Except.ok [])
      (Or.inl rfl)).2.1⟩

/-- C7: confirming logout deletes exactly the `accessToken` and
`refreshToken` entries of the secure store and leaves every other key
untouched. -/
theorem logout_clears_exactly_tokens (s : MyPageState) (store : SecureStore) :
    (confirmLogout s store).2.1 "accessToken" = none ∧
    (confirmLogout s store).2.1 "refreshToken" = none ∧
    ∀ k, k ≠ "accessToken" → k ≠ "refreshToken" →
      (confirmLogout s store).2.1 k = store k := by
  refine ⟨by simp [confirmLogout, deleteItemAsync],
    by simp [confirmLogout, deleteItemAsync], ?_⟩
  intro k h1 h2
  simp [confirmLogout, deleteItemAsync, h1, h2]

/-- C7 witness: a third key, here `theme`, survives logout with its stored
value. -/
theorem logout_clears_exactly_tokens_witness :
    (confirmLogout demoMyPage demoStore).2.1 "theme" = demoStore "theme" :=
  (logout_clears_exactly_tokens demoMyPage demoStore).2.2 "theme"
    (by decide) (by decide)

/-- C8: the saved-word count of the profile screen equals the number of entries
the home screen displays after its deduplication of the same fetched
list. -/
theorem profile_count_matches_home (l : List WordData) :
    (uniqueWordsProfile (l.map toProfileWordData)).length = (uniqueWords l).length := by
  unfold uniqueWordsProfile uniqueWords
  rw [List.enum_map, List.filter_map, List.length_map, List.length_map,
    List.length_map]
  congr 1
  apply List.filter_congr
  intro x hx
  obtain ⟨i, w⟩ := x
  simp only [Function.comp, Prod.map, id_eq, findIdx_map_eq]
  rfl

/-- C9: after a successful fetch the composite `FlatList` keys are pairwise
distinct, and both toggle handlers preserve the exact key list (hence the
distinctness), never adding, removing or re-keying entries. -/
theorem dedup_keys_distinct_toggles_preserve (s : HomeState)
    (allWords : List WordData) (uid : String) :
    distinctKeys (fetchWords s (Except.ok allWords)).words ∧
    (∀ ws : List ProcessedWord,
      (handleItemToggle uid ws).map uniqueIdOf = ws.map uniqueIdOf) ∧
    (∀ t : HomeState,
      (handleToggleAllMeanings t).words.map uniqueIdOf = t.words.map uniqueIdOf) ∧
    (∀ ws : List ProcessedWord, distinctKeys ws →
      distinctKeys (handleItemToggle uid ws)) ∧
    (∀ t : HomeState, distinctKeys t.words →
      distinctKeys (handleToggleAllMeanings t).words) := by
  refine ⟨processWords_distinctKeys allWords,
    fun ws => handleItemToggle_keys uid ws,
    fun t => handleToggleAll_keys t,
    fun ws hd => distinctKeys_of_map_eq (handleItemToggle_keys uid ws) hd,
    fun t hd => distinctKeys_of_map_eq (handleToggleAll_keys t) hd⟩

/-- C9 witness: key distinctness survives an item toggle on a concrete
singleton list. -/
theorem dedup_keys_distinct_toggles_preserve_witness :
    distinctKeys (handleItemToggle (mkUniqueId 1 2) [demoWord]) :=
  (dedup_keys_distinct_toggles_preserve demoState [] (mkUniqueId 1 2)).2.2.2.1
    [demoWord] (by simp [distinctKeys])

/-- C10: every successful fetch leaves `showAllMeanings` unchanged while
every entry of the new list is invisible; in particular a refresh done
while `showAllMeanings` is `true` yields a `true` flag over a list with no
visible meaning. -/
theorem fetch_success_resets_visibility (s : HomeState) (allWords : List WordData) :
    (fetchWords s (Except.ok allWords)).showAllMeanings = s.showAllMeanings ∧
    ((fetchWords s (Except.ok allWords)).words.all fun w => !w.isMeaningVisible) = true ∧
    (s.showAllMeanings = true →
      (fetchWords s (Except.ok allWords)).showAllMeanings = true ∧
      ((fetchWords s (Except.ok allWords)).words.all
        fun w => !w.isMeaningVisible) = true) := by
  have hall : ((fetchWords s (Except.ok allWords)).words.all
      fun w => !w.isMeaningVisible) = true := by
    show ((processWords allWords).all fun w => !w.isMeaningVisible) = true
    rw [List.all_eq_true]
    intro x hx
    obtain ⟨w, hwmem, rfl⟩ := List.mem_map.mp hx
    rfl
  refine ⟨rfl, hall, fun h => ⟨?_, hall⟩⟩
  show s.showAllMeanings = true
  exact h

/-- C10 witness: refreshing `demoStateShown` (whose flag is on) keeps the
flag on while the fetched entry is invisible. -/
theorem fetch_success_resets_visibility_witness :
    (fetchWords demoStateShown (Except.ok [cxA])).showAllMeanings = true ∧
    ((fetchWords demoStateShown (Except.ok [cxA])).words.all
      fun w => !w.isMeaningVisible) = true :=
  (fetch_success_resets_visibility demoStateShown [cxA]).2.2 rfl

end AicaMobile
